import Mathlib

/-!
Shallow embedding of the JWS web synthesizer's note-lifecycle core.

The repository ships two implementations of the same design:
* the modular variant (`src/js/state/state.js`, `src/js/audio/note-engine.js`,
  `src/js/features/arpeggiator.js`, `src/js/features/presets.js`), embedded in
  namespace `NE` below, and
* the single-file variant (`src/unnamed/part_000`), embedded in namespace `P0`.

Audio-clock timestamps and audio-node wiring are irrelevant to the claims
checked here, so scheduled gain automation is recorded as a list of
`AudioEvent`s (operation + target value), omitting the time argument.
Registries mirror the JavaScript `Map` (insertion-ordered association list)
and `Set` (insertion-ordered duplicate-free list).
-/

/-- A note id: the source builds the string `note + "-" + (++globalId)`;
we keep the two components, which is injective on the note names in use. -/
structure NoteId where
  note : String
  uid : Nat
  deriving Repr, DecidableEq

/-- One scheduled gain-automation operation (target values only; the time
argument of the source calls is dropped, no claim depends on it). -/
inductive AudioEvent where
  | cancelSched : AudioEvent
  | setValue : Rat → AudioEvent
  | setToCurrent : AudioEvent
  | expRamp : Rat → AudioEvent
  | oscStop : AudioEvent
  deriving Repr, DecidableEq

/-- Registry entry for one sounding voice: note name, number of owned source
nodes (1 subtractive oscillator, or 3 FM operators), and the envelope
automation scheduled at creation. -/
structure NoteData where
  note : String
  nodes : Nat
  env : List AudioEvent
  deriving Repr, DecidableEq

/-- Insertion-ordered map lookup, mirroring `Map.prototype.get`. -/
def mapGet (k : NoteId) : List (NoteId × NoteData) → Option NoteData
  | [] => none
  | e :: rest => if e.1 = k then some e.2 else mapGet k rest

/-- Mirrors `Map.prototype.has`. -/
def mapHas (k : NoteId) : List (NoteId × NoteData) → Bool
  | [] => false
  | e :: rest => if e.1 = k then true else mapHas k rest

/-- Mirrors `Map.prototype.set`: update in place if present, else append. -/
def mapSet (k : NoteId) (v : NoteData) : List (NoteId × NoteData) → List (NoteId × NoteData)
  | [] => [(k, v)]
  | e :: rest => if e.1 = k then (k, v) :: rest else e :: mapSet k v rest

/-- Mirrors `Map.prototype.delete` (keys are unique in every reachable
registry, so removing all matches coincides with removing the entry). -/
def mapDelete (k : NoteId) : List (NoteId × NoteData) → List (NoteId × NoteData)
  | [] => []
  | e :: rest => if e.1 = k then mapDelete k rest else e :: mapDelete k rest

/-- Mirrors `map.keys().next().value`: first-inserted key, if any. -/
def mapFirstKey (m : List (NoteId × NoteData)) : Option NoteId :=
  m.head?.map Prod.fst

/-- Mirrors `Set.prototype.add`. -/
def setAdd (k : NoteId) (s : List NoteId) : List NoteId :=
  if k ∈ s then s else s ++ [k]

/-- Mirrors `Set.prototype.delete`. -/
def setDelete (k : NoteId) : List NoteId → List NoteId
  | [] => []
  | x :: rest => if x = k then setDelete k rest else x :: setDelete k rest

/-- The note-name → frequency table (`noteFrequencies`, `src/unnamed/part_000`
line 92; the modular variant imports the identical table from
`utils/constants.js`). -/
def noteFrequencies : List (String × Rat) :=
  [("C4", 261.63), ("Db4", 277.18), ("D4", 293.66), ("Eb4", 311.13), ("E4", 329.63),
   ("F4", 349.23), ("Gb4", 369.99), ("G4", 392.00), ("Ab4", 415.30), ("A4", 440.00),
   ("Bb4", 466.16), ("B4", 493.88), ("C5", 523.25)]

/-- `noteFrequencies[note]` as an optional lookup. -/
def noteFreq (n : String) : Option Rat :=
  (noteFrequencies.find? (fun p => p.1 == n)).map Prod.snd

/-- The per-waveform gain-normalization table (`waveformGains`,
`src/unnamed/part_000` line 91). -/
def waveformGains (w : String) : Option Rat :=
  if w = "sine" then some 0.8
  else if w = "square" then some 0.4
  else if w = "sawtooth" then some 0.5
  else if w = "triangle" then some 0.7
  else none

/-- Mutable note-engine state shared by both variants: the `activeNotes`
insertion-ordered registry, the `heldNotes` set, and the monotone id counter. -/
structure EngineState where
  activeNotes : List (NoteId × NoteData)
  heldNotes : List NoteId
  globalId : Nat
  deriving Repr, DecidableEq

/-- The state at module load: empty registries, counter at 0. -/
def EngineState.initial : EngineState := ⟨[], [], 0⟩

/-- Keys of the active registry, in insertion order. -/
def EngineState.activeKeys (s : EngineState) : List NoteId :=
  s.activeNotes.map Prod.fst

/-- Result of one `playNote` call: the new state, the returned id (`null`
modelled as `none`), and the ids for which a deferred `stopNote` timeout was
scheduled (`setTimeout(() => stopNote(noteId), duration * 1000)`). -/
structure PlayResult where
  state : EngineState
  ret : Option NoteId
  pendingStops : List NoteId
  deriving Repr, DecidableEq

/-- The effect on `effects` flags (`reverb`, `delay`, `distortion`). -/
structure EffectFlags where
  reverb : Bool
  delay : Bool
  distortion : Bool
  deriving Repr, DecidableEq

/-- Shared body of `stopNote` — the two variants have literally the same
logic (`src/js/audio/note-engine.js` lines 227-246, `src/unnamed/part_000`
lines 303-314) and read only `performance.hold` from the settings.  Returned
events: none on the unknown-id and hold-suppression early returns; otherwise
cancel + capture-current-value + release ramp to the 0.001 floor, a deferred
`stop` per owned source node, and removal from both registries. -/
def stopNoteCore (hold : Bool) (noteId : NoteId) (immediate : Bool) (s : EngineState) :
    EngineState × List AudioEvent :=
  match mapGet noteId s.activeNotes with
  | none => (s, [])
  | some nd =>
    if hold = true ∧ noteId ∈ s.heldNotes ∧ immediate = false then (s, [])
    else
      ({ s with activeNotes := mapDelete noteId s.activeNotes
              , heldNotes := setDelete noteId s.heldNotes },
       [.cancelSched, .setToCurrent, .expRamp 0.001] ++ List.replicate nd.nodes .oscStop)

/-- Shared voice-steal step of `playNote`:
`if (activeNotes.size >= ceiling) stopNote(activeNotes.keys().next().value, true)`
(`src/js/audio/note-engine.js` lines 55-59 with ceiling `polyphony`;
`src/unnamed/part_000` lines 264-268 with ceiling `maxNotes`).  On an empty
registry `keys().next().value` is `undefined` and the stop is a no-op. -/
def stealOldest (hold : Bool) (ceiling : Int) (s : EngineState) : EngineState :=
  if (s.activeNotes.length : Int) ≥ ceiling then
    match mapFirstKey s.activeNotes with
    | some oldest => (stopNoteCore hold oldest true s).1
    | none => s
  else s

/-- Shared stop-every-active-id sweep (the `stopAllNotes` snapshot loop of
both variants, and the mono-mode `forEach` of `src/unnamed/part_000` lines
261-263, whose live iteration visits and stops exactly the ids present at
entry, in insertion order). -/
def stopSweep (hold : Bool) (immediate : Bool) (s : EngineState) : EngineState :=
  s.activeKeys.foldl (fun acc k => (stopNoteCore hold k immediate acc).1) s

namespace NE

/-- `synthSettings.subtractive` block (`src/js/state/state.js` lines 8-12). -/
structure SubtractiveParams where
  waveform : String
  attack : Rat
  decay : Rat
  sustain : Rat
  release : Rat
  octaveShift : Int
  deriving Repr, DecidableEq

/-- `synthSettings.fm` block (`src/js/state/state.js` lines 13-18). -/
structure FmParams where
  algorithm : String
  ratio : Rat
  modIndex : Rat
  attack : Rat
  decay : Rat
  sustain : Rat
  release : Rat
  octaveShift : Int
  deriving Repr, DecidableEq

/-- One drum kit's timbre knobs (`src/js/state/state.js` lines 21-34). -/
structure DrumKitParams where
  kickTune : Rat
  snareSnap : Rat
  hatDecay : Rat
  tomPitch : Rat
  cymbalDecay : Rat
  deriving Repr, DecidableEq

/-- The four named kits of `synthSettings.drum.kits`. -/
structure DrumKits where
  acoustic : DrumKitParams
  electronic : DrumKitParams
  lofi : DrumKitParams
  ethnic : DrumKitParams
  deriving Repr, DecidableEq

/-- `synthSettings.drum` block (`src/js/state/state.js` lines 19-36). -/
structure DrumParams where
  kit : String
  kits : DrumKits
  octaveShift : Int
  deriving Repr, DecidableEq

/-- `synthSettings.performance` block (`src/js/state/state.js` lines 47-49). -/
structure Performance where
  hold : Bool
  arp : Bool
  arpDirection : String
  deriving Repr, DecidableEq

/-- The whole `synthSettings` object of the modular variant
(`src/js/state/state.js` lines 5-50).  The `sequencer` field models the
property of the same name that `loadPreset` dynamically adds to the object
(`Object.assign` copies the snapshot's `sequencer` key onto `synthSettings`);
`none` means the property is absent, as it is at start-up. -/
structure SynthSettings where
  engine : String
  subtractive : SubtractiveParams
  fm : FmParams
  drum : DrumParams
  polyphony : Int
  filterCutoff : Rat
  lfoRate : Rat
  lfoDepth : Rat
  faderMode : String
  sequencerTempo : Rat
  effects : EffectFlags
  performance : Performance
  sequencer : Option (List Bool)
  deriving Repr, DecidableEq

/-- The initial values of `synthSettings` (`src/js/state/state.js`). -/
def defaultSynthSettings : SynthSettings :=
  { engine := "subtractive"
  , subtractive :=
      { waveform := "sine", attack := 0.02, decay := 0.1, sustain := 0.8
      , release := 0.5, octaveShift := 0 }
  , fm :=
      { algorithm := "series", ratio := 1.4, modIndex := 250
      , attack := 0.01, decay := 1.0, sustain := 0.5, release := 0.8, octaveShift := 0 }
  , drum :=
      { kit := "acoustic"
      , kits :=
          { acoustic := ⟨0.3, 0.5, 0.06, 0.5, 0.8⟩
          , electronic := ⟨0.1, 0.8, 0.1, 0.2, 1.2⟩
          , lofi := ⟨0.6, 0.3, 0.08, 0.6, 0.6⟩
          , ethnic := ⟨0.8, 0.6, 0.04, 0.8, 0.7⟩ }
      , octaveShift := 0 }
  , polyphony := 16
  , filterCutoff := 18000
  , lfoRate := 5
  , lfoDepth := 0
  , faderMode := "cutoff"
  , sequencerTempo := 120
  , effects := ⟨false, false, false⟩
  , performance := ⟨false, false, "up"⟩
  , sequencer := none }

/-- Envelope scheduled by `playSubtractiveNote` (`src/js/audio/note-engine.js`
lines 116-122): silence floor, exponential attack ramp to the normalized peak,
exponential decay ramp to `Math.max(sustainLevel, 0.001)`. -/
def subEnv (p : SubtractiveParams) : List AudioEvent :=
  let maxGain := (waveformGains p.waveform).getD 0.8
  let sustainLevel := maxGain * p.sustain
  [.cancelSched, .setValue 0.001, .expRamp maxGain, .expRamp (max sustainLevel 0.001)]

/-- Envelope scheduled by `playFmNote` (`src/js/audio/note-engine.js`
lines 207-213): identical shape with fixed peak gain 0.7. -/
def fmEnv (p : FmParams) : List AudioEvent :=
  let maxGain := (0.7 : Rat)
  let sustainLevel := maxGain * p.sustain
  [.cancelSched, .setValue 0.001, .expRamp maxGain, .expRamp (max sustainLevel 0.001)]

/-- `stopNote(noteId, immediate)` (`src/js/audio/note-engine.js` lines
227-246).  Returns the new state together with the automation it schedules:
nothing on the unknown-id and hold-suppression early returns; otherwise
cancel + capture-current-value + release ramp to the 0.001 floor, then a
deferred `stop` for each owned source node, and removal of the id from both
registries. -/
def stopNote (st : SynthSettings) (noteId : NoteId) (immediate : Bool) (s : EngineState) :
    EngineState × List AudioEvent :=
  stopNoteCore st.performance.hold noteId immediate s

/-- `playNote(note, duration)` (`src/js/audio/note-engine.js` lines 41-85).
Unknown note names return `null` with no state change; the drum engine fires
a sample without touching the registry and returns `null`; tonal engines
steal the insertion-order head when `activeNotes.size >= polyphony`, then
register a fresh id, add it to `heldNotes` when hold is on, and schedule the
deferred auto-stop when a (truthy) duration is given. -/
def playNote (st : SynthSettings) (note : String) (duration : Option Rat) (s : EngineState) :
    PlayResult :=
  if (noteFreq note).isNone then ⟨s, none, []⟩
  else if st.engine = "drum" then ⟨s, none, []⟩
  else
    let s1 := stealOldest st.performance.hold st.polyphony s
    let noteId : NoteId := ⟨note, s.globalId + 1⟩
    let noteData : NoteData :=
      if st.engine = "fm" then ⟨note, 3, fmEnv st.fm⟩ else ⟨note, 1, subEnv st.subtractive⟩
    let s2 : EngineState :=
      { activeNotes := mapSet noteId noteData s1.activeNotes
      , heldNotes := if st.performance.hold then setAdd noteId s1.heldNotes else s1.heldNotes
      , globalId := s.globalId + 1 }
    ⟨s2, some noteId,
     match duration with
     | some d => if d ≠ 0 then [noteId] else []
     | none => []⟩

/-- `stopAllNotes(immediate)` (`src/js/audio/note-engine.js` lines 252-256):
snapshots the registry and stops every id in insertion order. -/
def stopAllNotes (st : SynthSettings) (immediate : Bool) (s : EngineState) : EngineState :=
  stopSweep st.performance.hold immediate s

/-- A sequence of `playNote` calls (note name and optional duration each),
folded over the engine state. -/
def playSeq (st : SynthSettings) (calls : List (String × Option Rat)) (s : EngineState) :
    EngineState :=
  calls.foldl (fun acc c => (playNote st c.1 c.2 acc).state) s

end NE

namespace P0

/-- `synthSettings.performance` of the single-file variant
(`src/unnamed/part_000` lines 80-85); this variant also has a mono flag. -/
structure Performance where
  hold : Bool
  mono : Bool
  arp : Bool
  arpDirection : String
  deriving Repr, DecidableEq

/-- The flat `synthSettings` object of the single-file variant
(`src/unnamed/part_000` lines 62-86), with the same dynamically added
`sequencer` property modelled as an `Option` (see `NE.SynthSettings`). -/
structure Settings where
  waveform : String
  attack : Rat
  decay : Rat
  sustain : Rat
  release : Rat
  polyphony : Int
  octaveShift : Int
  filterCutoff : Rat
  lfoRate : Rat
  lfoDepth : Rat
  faderMode : String
  sequencerTempo : Rat
  effects : EffectFlags
  performance : Performance
  sequencer : Option (List Bool)
  deriving Repr, DecidableEq

/-- The initial values of `synthSettings` (`src/unnamed/part_000` lines 62-86). -/
def defaultSynthSettings : Settings :=
  { waveform := "sine"
  , attack := 0.02
  , decay := 0.1
  , sustain := 0.8
  , release := 0.5
  , polyphony := 16
  , octaveShift := 0
  , filterCutoff := 1000
  , lfoRate := 5
  , lfoDepth := 0
  , faderMode := "cutoff"
  , sequencerTempo := 120
  , effects := ⟨false, false, false⟩
  , performance := ⟨false, false, false, "up"⟩
  , sequencer := none }

/-- Envelope scheduled by this variant's `playNote` (`src/unnamed/part_000`
lines 285-290); its peak gain is the table value scaled by a further 0.8. -/
def p0Env (st : Settings) : List AudioEvent :=
  let maxGain := (waveformGains st.waveform).getD 0.8 * 0.8
  let sustainLevel := maxGain * st.sustain
  [.cancelSched, .setValue 0.001, .expRamp maxGain, .expRamp (max sustainLevel 0.001)]

/-- `stopNote(noteId, immediate)` (`src/unnamed/part_000` lines 303-314);
same logic as the modular variant, with a single oscillator per voice. -/
def stopNote (st : Settings) (noteId : NoteId) (immediate : Bool) (s : EngineState) :
    EngineState × List AudioEvent :=
  stopNoteCore st.performance.hold noteId immediate s

/-- The mono-mode sweep `activeNotes.forEach((_, noteId) => stopNote(noteId,
true))` (`src/unnamed/part_000` lines 261-263): each callback deletes exactly
the visited key, so the iteration stops every registered id in insertion
order. -/
def stopAllActive (st : Settings) (s : EngineState) : EngineState :=
  stopSweep st.performance.hold true s

/-- The voice ceiling of the single-file variant (`src/unnamed/part_000`
line 264): `performance.hold ? polyphony : polyphony - 2`. -/
def maxNotes (st : Settings) : Int :=
  if st.performance.hold then st.polyphony else st.polyphony - 2

/-- `playNote(note, duration)` (`src/unnamed/part_000` lines 258-296).
After the unknown-note guard and the mono sweep, the polyphony ceiling is
`maxNotes`; reaching it steals the insertion-order head; then a fresh id is
registered, held when hold is on, with the deferred auto-stop when a (truthy)
duration is given. -/
def playNote (st : Settings) (note : String) (duration : Option Rat) (s : EngineState) :
    PlayResult :=
  if (noteFreq note).isNone then ⟨s, none, []⟩
  else
    let s0 :=
      if st.performance.mono = true ∧ 0 < s.activeNotes.length then stopAllActive st s else s
    let s1 := stealOldest st.performance.hold (maxNotes st) s0
    let noteId : NoteId := ⟨note, s.globalId + 1⟩
    let s2 : EngineState :=
      { activeNotes := mapSet noteId ⟨note, 1, p0Env st⟩ s1.activeNotes
      , heldNotes := if st.performance.hold then setAdd noteId s1.heldNotes else s1.heldNotes
      , globalId := s.globalId + 1 }
    ⟨s2, some noteId,
     match duration with
     | some d => if d ≠ 0 then [noteId] else []
     | none => []⟩

/-- A sequence of `playNote` calls folded over the engine state. -/
def playSeq (st : Settings) (calls : List (String × Option Rat)) (s : EngineState) :
    EngineState :=
  calls.foldl (fun acc c => (playNote st c.1 c.2 acc).state) s

end P0

/-- Arpeggiator state (`arpNotes`, `arpIndex`, `lastArpNoteId` in
`src/js/state/state.js` lines 57-62). -/
structure ArpState where
  arpNotes : List String
  arpIndex : Nat
  lastArpNoteId : Option NoteId
  deriving Repr, DecidableEq

/-- Insertion into a frequency-sorted list; `(noteFreq n).getD 0` mirrors the
comparator `noteFrequencies[a] - noteFrequencies[b]` (arpeggiator notes always
come from the keyboard map, hence are in the table). -/
def insertByFreq (n : String) : List String → List String
  | [] => [n]
  | m :: rest =>
    if (noteFreq n).getD 0 ≤ (noteFreq m).getD 0 then n :: m :: rest
    else m :: insertByFreq n rest

/-- `[...arpNotes].sort((a, b) => noteFrequencies[a] - noteFrequencies[b])`:
ascending sort by frequency. -/
def sortByFreq (l : List String) : List String := l.foldr insertByFreq []

/-- JavaScript array indexing `l[i]` with a possibly negative index
(`undefined` modelled as `none`). -/
def getAtInt (l : List String) (i : Int) : Option String :=
  if i < 0 then none else l.get? i.toNat

namespace NE

/-- One arpeggiator interval tick (`src/js/features/arpeggiator.js` lines
16-33): stop the previously triggered note immediately; if any notes are
held, pick from the ascending-by-frequency sort at `arpIndex` (reversed index
for direction "down"), trigger it, remember its id, advance the cursor modulo
the held count.  The third component reports the note name handed to
`playNote` this tick. -/
def arpTick (st : SynthSettings) (e : EngineState) (a : ArpState) :
    EngineState × ArpState × Option String :=
  let e1 := match a.lastArpNoteId with
            | some lastId => (stopNote st lastId true e).1
            | none => e
  if 0 < a.arpNotes.length then
    let sortedNotes := sortByFreq a.arpNotes
    let noteToPlay : Option String :=
      if st.performance.arpDirection = "down" then
        getAtInt sortedNotes ((sortedNotes.length : Int) - 1 - (a.arpIndex : Int))
      else getAtInt sortedNotes (a.arpIndex : Int)
    match noteToPlay with
    | some n =>
      let r := playNote st n none e1
      (r.state,
       { a with lastArpNoteId := r.ret, arpIndex := (a.arpIndex + 1) % a.arpNotes.length },
       some n)
    | none =>
      -- out-of-range index: `playNote(undefined)` returns null with no state change
      (e1, { a with lastArpNoteId := none, arpIndex := (a.arpIndex + 1) % a.arpNotes.length },
       none)
  else (e1, a, none)

/-- The note names handed to `playNote` over `n` consecutive arpeggiator
ticks. -/
def arpTriggers (st : SynthSettings) : Nat → EngineState → ArpState → List (Option String)
  | 0, _, _ => []
  | n + 1, e, a =>
    let r := arpTick st e a
    r.2.2 :: arpTriggers st n r.1 r.2.1

/-- The sequencer timer interval in milliseconds:
`(60 / synthSettings.sequencerTempo) * 1000 / 4`
(`src/js/features/presets.js`, sequencer section, line 85). -/
def sequencerIntervalMs (tempo : Rat) : Rat := 60 / tempo * 1000 / 4

/-- The fixed note duration a firing step passes to `playNote`:
`60 / synthSettings.sequencerTempo / 2` (same file, line 71). -/
def seqNoteDuration (tempo : Rat) : Rat := 60 / tempo / 2

/-- One `sequencerLoop` tick (same file, lines 64-74), step-marking classList
work omitted: if the pattern enables the current step, trigger the last
played note with the fixed eighth-note duration; always advance the 0-15
cursor.  The third component reports the `playNote` call made, if any. -/
def sequencerLoop (st : SynthSettings) (pattern : List Bool) (lastNote : String)
    (e : EngineState) (currentStep : Nat) : EngineState × Nat × Option (String × Rat) :=
  if pattern.getD currentStep false then
    let dur := seqNoteDuration st.sequencerTempo
    let r := playNote st lastNote (some dur) e
    (r.state, (currentStep + 1) % 16, some (lastNote, dur))
  else (e, (currentStep + 1) % 16, none)

/-- The `playNote` calls made over `n` consecutive sequencer ticks, paired
with the step cursor at which each tick fired. -/
def seqTriggers (st : SynthSettings) (pattern : List Bool) (lastNote : String) :
    Nat → EngineState → Nat → List (Nat × Option (String × Rat))
  | 0, _, _ => []
  | n + 1, e, cur =>
    let r := sequencerLoop st pattern lastNote e cur
    (cur, r.2.2) :: seqTriggers st pattern lastNote n r.1 r.2.1

/-- The preset store (`src/js/features/presets.js` line 11: four slots, `{}`
= never saved, modelled as `none`) together with the live settings object and
the sequencer pattern it reads and writes.  The note/arpeggiator registries
that `loadPreset` clears are transient state kept in `EngineState`/`ArpState`
and are not part of the snapshot. -/
structure PresetSys where
  live : SynthSettings
  pattern : List Bool
  slot0 : Option SynthSettings
  slot1 : Option SynthSettings
  slot2 : Option SynthSettings
  slot3 : Option SynthSettings
  deriving Repr, DecidableEq

/-- A blank 16-step pattern, `Array(16).fill(false)`. -/
def blankPattern : List Bool := List.replicate 16 false

/-- `presets[index]` read. -/
def getSlot (sys : PresetSys) (i : Nat) : Option SynthSettings :=
  if i = 0 then sys.slot0 else if i = 1 then sys.slot1
  else if i = 2 then sys.slot2 else if i = 3 then sys.slot3 else none

/-- `presets[index]` write. -/
def setSlot (sys : PresetSys) (i : Nat) (v : Option SynthSettings) : PresetSys :=
  if i = 0 then { sys with slot0 := v } else if i = 1 then { sys with slot1 := v }
  else if i = 2 then { sys with slot2 := v } else if i = 3 then { sys with slot3 := v }
  else sys

/-- `savePreset(index)` (`src/js/features/presets.js` lines 17-21): deep-copy
the live settings into the slot (`JSON.parse(JSON.stringify(...))` is the
identity on this pure data), then set the snapshot's `sequencer` property to
a copy of the pattern. -/
def savePreset (i : Nat) (sys : PresetSys) : PresetSys :=
  setSlot sys i (some { sys.live with sequencer := some sys.pattern })

/-- `loadPreset(index)` (`src/js/features/presets.js` lines 27-49), settings
and pattern effects only (the immediate stop of all notes and of the
arpeggiator touches transient state; `toggleEffect`/`startArpeggiator`/UI
resync mutate no settings).  Empty slot: only the pattern is blanked — the
live settings tree is left untouched (`defaultSynthSettings` is imported by
this file but never used).  Non-empty slot: `Object.assign` replaces every
key of the live object with the snapshot's deep copy (the snapshot carries
every key, including `sequencer`), and the pattern becomes
`presetToLoad.sequencer || blank`. -/
def loadPreset (i : Nat) (sys : PresetSys) : PresetSys :=
  match getSlot sys i with
  | none => { sys with pattern := blankPattern }
  | some p => { sys with live := p, pattern := p.sequencer.getD blankPattern }

end NE

namespace P0

/-- The preset store of the single-file variant (`src/unnamed/part_000`
line 89) with the live settings and pattern. -/
structure PresetSys where
  live : Settings
  pattern : List Bool
  slot0 : Option Settings
  slot1 : Option Settings
  slot2 : Option Settings
  slot3 : Option Settings
  deriving Repr, DecidableEq

/-- `presets[index]` read. -/
def getSlot (sys : PresetSys) (i : Nat) : Option Settings :=
  if i = 0 then sys.slot0 else if i = 1 then sys.slot1
  else if i = 2 then sys.slot2 else if i = 3 then sys.slot3 else none

/-- `presets[index]` write. -/
def setSlot (sys : PresetSys) (i : Nat) (v : Option Settings) : PresetSys :=
  if i = 0 then { sys with slot0 := v } else if i = 1 then { sys with slot1 := v }
  else if i = 2 then { sys with slot2 := v } else if i = 3 then { sys with slot3 := v }
  else sys

/-- `savePreset(index)` (`src/unnamed/part_000` lines 525-529). -/
def savePreset (i : Nat) (sys : PresetSys) : PresetSys :=
  setSlot sys i (some { sys.live with sequencer := some sys.pattern })

/-- `loadPreset(index)` (`src/unnamed/part_000` lines 535-552), settings and
pattern effects only.  Unlike the modular variant, the empty-slot branch
restores the defaults: `Object.assign(synthSettings, copy(defaultSynthSettings))`
overwrites every default key (the live object's dynamically added `sequencer`
key is not among them, so it survives) and the pattern is blanked. -/
def loadPreset (i : Nat) (sys : PresetSys) : PresetSys :=
  match getSlot sys i with
  | none =>
    { sys with live := { defaultSynthSettings with sequencer := sys.live.sequencer }
             , pattern := NE.blankPattern }
  | some p => { sys with live := p, pattern := p.sequencer.getD NE.blankPattern }

end P0

/-- Registry well-formedness maintained by both variants: keys are unique and
every registered uid is at most the current `globalId` counter (ids embed the
post-increment counter value, so fresh ids can never collide). -/
def EngineState.WF (s : EngineState) : Prop :=
  s.activeKeys.Nodup ∧ ∀ k ∈ s.activeKeys, k.uid ≤ s.globalId

/-- The claimed C9 invariant: every held id is registered as active. -/
def EngineState.heldSubset (s : EngineState) : Prop :=
  ∀ id ∈ s.heldNotes, mapHas id s.activeNotes = true

namespace NE

/-- Default settings with hold mode enabled. -/
def stHoldOn : SynthSettings :=
  { defaultSynthSettings with performance := ⟨true, false, "up"⟩ }

/-- Default settings with arpeggiator direction "down". -/
def stDown : SynthSettings :=
  { defaultSynthSettings with performance := ⟨false, false, "down"⟩ }

/-- A concrete registered id for witnesses. -/
def demoNid : NoteId := ⟨"C4", 1⟩

/-- Its registry entry. -/
def demoNoteData : NoteData := ⟨"C4", 1, subEnv defaultSynthSettings.subtractive⟩

/-- A concrete engine state holding one active, held note. -/
def demoHeldState : EngineState := ⟨[(demoNid, demoNoteData)], [demoNid], 1⟩

/-- A fresh preset system: default live settings (no `sequencer` property
yet), blank pattern, all four slots never saved. -/
def demoSys : PresetSys := ⟨defaultSynthSettings, blankPattern, none, none, none, none⟩

/-- A preset system whose live settings already carry a `sequencer` property
equal to the current pattern (the situation after any previous load). -/
def demoSysMatched : PresetSys :=
  ⟨{ defaultSynthSettings with sequencer := some blankPattern }, blankPattern,
   none, none, none, none⟩

/-- A preset system with a non-default live tree (polyphony lowered to 8) and
all slots empty, exhibiting the empty-slot load behaviour. -/
def bugSys : PresetSys :=
  ⟨{ defaultSynthSettings with polyphony := 8 }, blankPattern, none, none, none, none⟩

/-- Arpeggiator state holding the C-major triad {C4, E4, G4} (deliberately
listed out of pitch order) with the cursor at 0. -/
def demoArp : ArpState := ⟨["G4", "C4", "E4"], 0, none⟩

/-- The 16-step pattern with only step 0 enabled. -/
def patternStep0 : List Bool := true :: List.replicate 15 false

/-- Strip the dynamically added `sequencer` property from a settings object,
leaving exactly the fields of the Settings Tree of `state.js`. -/
def eraseSeqKey (s : SynthSettings) : SynthSettings := { s with sequencer := none }

end NE

namespace P0

/-- Single-file-variant preset system with a non-default live tree
(polyphony lowered to 8) and all slots empty. -/
def bugSys : PresetSys :=
  ⟨{ defaultSynthSettings with polyphony := 8 }, NE.blankPattern, none, none, none, none⟩

/-- Single-file-variant settings with polyphony 3 (hold and mono off), giving
a voice ceiling of 1. -/
def stPoly3 : Settings := { defaultSynthSettings with polyphony := 3 }

end P0

namespace NE

/-- Modular-variant settings with polyphony 1. -/
def stPoly1 : SynthSettings := { defaultSynthSettings with polyphony := 1 }

end NE

theorem mapHas_iff_mem_keys (k : NoteId) (m : List (NoteId × NoteData)) :
    mapHas k m = true ↔ k ∈ m.map Prod.fst := by
  induction m with
  | nil => simp [mapHas]
  | cons e rest ih =>
    by_cases h : e.1 = k
    · simp [mapHas, h]
    · simp only [mapHas, if_neg h, List.map_cons, List.mem_cons, ih]
      exact ⟨Or.inr, fun hc => hc.elim (fun he => absurd he.symm h) id⟩

theorem mapGet_isSome (k : NoteId) (m : List (NoteId × NoteData)) :
    (mapGet k m).isSome = mapHas k m := by
  induction m with
  | nil => simp [mapGet, mapHas]
  | cons e rest ih =>
    by_cases h : e.1 = k <;> simp [mapGet, mapHas, h, ih]

theorem mapGet_eq_none_of_not_has (k : NoteId) (m : List (NoteId × NoteData))
    (h : mapHas k m = false) : mapGet k m = none := by
  have := mapGet_isSome k m
  rw [h] at this
  exact Option.not_isSome_iff_eq_none.mp (by simp [this])

theorem mapHas_mapDelete_self (k : NoteId) (m : List (NoteId × NoteData)) :
    mapHas k (mapDelete k m) = false := by
  induction m with
  | nil => simp [mapDelete, mapHas]
  | cons e rest ih =>
    by_cases h : e.1 = k <;> simp [mapDelete, mapHas, h, ih]

theorem mapHas_mapDelete_of_ne (k k' : NoteId) (m : List (NoteId × NoteData))
    (h : k' ≠ k) : mapHas k' (mapDelete k m) = mapHas k' m := by
  induction m with
  | nil => simp [mapDelete]
  | cons e rest ih =>
    by_cases he : e.1 = k
    · have he' : e.1 ≠ k' := fun hc => h (hc ▸ he)
      rw [mapDelete, if_pos he, ih, mapHas, if_neg he']
    · by_cases he' : e.1 = k'
      · rw [mapDelete, if_neg he, mapHas, if_pos he', mapHas, if_pos he']
      · rw [mapDelete, if_neg he, mapHas, if_neg he', mapHas, if_neg he', ih]

theorem mapGet_mapDelete_self (k : NoteId) (m : List (NoteId × NoteData)) :
    mapGet k (mapDelete k m) = none :=
  mapGet_eq_none_of_not_has _ _ (mapHas_mapDelete_self k m)

theorem mapDelete_of_not_has (k : NoteId) (m : List (NoteId × NoteData))
    (h : mapHas k m = false) : mapDelete k m = m := by
  induction m with
  | nil => simp [mapDelete]
  | cons e rest ih =>
    by_cases he : e.1 = k
    · rw [mapHas, if_pos he] at h; exact absurd h (by simp)
    · rw [mapHas, if_neg he] at h
      simp [mapDelete, he, ih h]

theorem mapDelete_length_le (k : NoteId) (m : List (NoteId × NoteData)) :
    (mapDelete k m).length ≤ m.length := by
  induction m with
  | nil => simp [mapDelete]
  | cons e rest ih =>
    by_cases he : e.1 = k <;> simp [mapDelete, he] <;> omega

theorem mapDelete_length_lt (k : NoteId) (m : List (NoteId × NoteData))
    (h : mapHas k m = true) : (mapDelete k m).length < m.length := by
  induction m with
  | nil => simp [mapHas] at h
  | cons e rest ih =>
    by_cases he : e.1 = k
    · have := mapDelete_length_le k rest
      simp only [mapDelete, if_pos he, List.length_cons]
      omega
    · rw [mapHas, if_neg he] at h
      simp only [mapDelete, if_neg he, List.length_cons]
      exact Nat.succ_lt_succ (ih h)

theorem mapSet_length_le (k : NoteId) (v : NoteData) (m : List (NoteId × NoteData)) :
    (mapSet k v m).length ≤ m.length + 1 := by
  induction m with
  | nil => simp [mapSet]
  | cons e rest ih =>
    by_cases he : e.1 = k
    · simp [mapSet, he]
    · simp [mapSet, he]
      omega

theorem mapSet_of_not_has (k : NoteId) (v : NoteData) (m : List (NoteId × NoteData))
    (h : mapHas k m = false) : mapSet k v m = m ++ [(k, v)] := by
  induction m with
  | nil => simp [mapSet]
  | cons e rest ih =>
    by_cases he : e.1 = k
    · rw [mapHas, if_pos he] at h; exact absurd h (by simp)
    · rw [mapHas, if_neg he] at h
      simp [mapSet, he, ih h]

theorem mapHas_mapSet_self (k : NoteId) (v : NoteData) (m : List (NoteId × NoteData)) :
    mapHas k (mapSet k v m) = true := by
  induction m with
  | nil => simp [mapSet, mapHas]
  | cons e rest ih =>
    by_cases he : e.1 = k <;> simp [mapSet, mapHas, he, ih]

theorem mapHas_mapSet_of_has (k k' : NoteId) (v : NoteData) (m : List (NoteId × NoteData))
    (h : mapHas k' m = true) : mapHas k' (mapSet k v m) = true := by
  induction m with
  | nil => simp [mapHas] at h
  | cons e rest ih =>
    by_cases he : e.1 = k
    · by_cases hk : k = k'
      · rw [mapSet, if_pos he, mapHas, if_pos hk]
      · rw [mapHas, if_neg (fun hc : e.1 = k' => hk (he ▸ hc))] at h
        rw [mapSet, if_pos he, mapHas, if_neg hk]
        exact h
    · by_cases he' : e.1 = k'
      · rw [mapSet, if_neg he, mapHas, if_pos he']
      · rw [mapHas, if_neg he'] at h
        rw [mapSet, if_neg he, mapHas, if_neg he']
        exact ih h

theorem mapDelete_keys_sublist (k : NoteId) (m : List (NoteId × NoteData)) :
    ((mapDelete k m).map Prod.fst).Sublist (m.map Prod.fst) := by
  induction m with
  | nil => simp [mapDelete]
  | cons e rest ih =>
    by_cases he : e.1 = k
    · simp only [mapDelete, if_pos he, List.map_cons]
      exact ih.trans (List.sublist_cons_self _ _)
    · simp only [mapDelete, if_neg he, List.map_cons]
      exact ih.cons₂ _

theorem mem_setDelete (k x : NoteId) (l : List NoteId) :
    x ∈ setDelete k l ↔ x ∈ l ∧ x ≠ k := by
  induction l with
  | nil => simp [setDelete]
  | cons y rest ih =>
    by_cases hy : y = k
    · rw [setDelete, if_pos hy, ih]
      constructor
      · rintro ⟨h1, h2⟩
        exact ⟨List.mem_cons_of_mem y h1, h2⟩
      · rintro ⟨h1, h2⟩
        rcases List.mem_cons.mp h1 with h1 | h1
        · exact absurd (h1.trans hy) h2
        · exact ⟨h1, h2⟩
    · rw [setDelete, if_neg hy]
      constructor
      · intro hmem
        rcases List.mem_cons.mp hmem with h1 | h1
        · exact ⟨List.mem_cons.mpr (Or.inl h1), by rw [h1]; exact hy⟩
        · obtain ⟨h2, h3⟩ := (ih).mp h1
          exact ⟨List.mem_cons_of_mem y h2, h3⟩
      · rintro ⟨h1, h2⟩
        rcases List.mem_cons.mp h1 with h3 | h3
        · exact h3 ▸ List.mem_cons_self y _
        · exact List.mem_cons_of_mem y ((ih).mpr ⟨h3, h2⟩)

theorem mem_setAdd (k x : NoteId) (l : List NoteId) :
    x ∈ setAdd k l ↔ x = k ∨ x ∈ l := by
  unfold setAdd
  by_cases h : k ∈ l
  · rw [if_pos h]
    exact ⟨Or.inr, fun hc => hc.elim (fun he => he ▸ h) id⟩
  · rw [if_neg h]
    simp [or_comm]

theorem stopNoteCore_not_has (hold : Bool) (id : NoteId) (imm : Bool) (s : EngineState)
    (h : mapHas id s.activeNotes = false) : stopNoteCore hold id imm s = (s, []) := by
  unfold stopNoteCore
  rw [mapGet_eq_none_of_not_has _ _ h]

theorem stopNoteCore_suppressed (hold : Bool) (id : NoteId) (s : EngineState)
    (hHold : hold = true) (hHeld : id ∈ s.heldNotes) :
    stopNoteCore hold id false s = (s, []) := by
  cases hg : mapGet id s.activeNotes with
  | none => simp only [stopNoteCore, hg]
  | some nd =>
    simp only [stopNoteCore, hg]
    rw [if_pos ⟨hHold, hHeld, trivial⟩]

theorem stopNoteCore_removes (hold : Bool) (id : NoteId) (s : EngineState) (nd : NoteData)
    (hg : mapGet id s.activeNotes = some nd) :
    stopNoteCore hold id true s =
      ({ s with activeNotes := mapDelete id s.activeNotes
              , heldNotes := setDelete id s.heldNotes },
       [.cancelSched, .setToCurrent, .expRamp 0.001] ++ List.replicate nd.nodes .oscStop) := by
  simp only [stopNoteCore, hg]
  rw [if_neg (by rintro ⟨-, -, hc⟩; exact Bool.noConfusion hc)]

theorem stopNoteCore_cases (hold : Bool) (id : NoteId) (imm : Bool) (s : EngineState) :
    (stopNoteCore hold id imm s).1 = s ∨
    (mapHas id s.activeNotes = true ∧
     (stopNoteCore hold id imm s).1 =
       { s with activeNotes := mapDelete id s.activeNotes
              , heldNotes := setDelete id s.heldNotes }) := by
  cases hg : mapGet id s.activeNotes with
  | none => exact Or.inl (by simp only [stopNoteCore, hg])
  | some nd =>
    have hhas : mapHas id s.activeNotes = true := by
      have h := mapGet_isSome id s.activeNotes
      rw [hg] at h
      simpa using h.symm
    by_cases hguard : hold = true ∧ id ∈ s.heldNotes ∧ imm = false
    · refine Or.inl ?_
      simp only [stopNoteCore, hg]
      rw [if_pos hguard]
    · refine Or.inr ⟨hhas, ?_⟩
      simp only [stopNoteCore, hg]
      rw [if_neg hguard]

theorem stopNoteCore_length_le (hold : Bool) (id : NoteId) (imm : Bool) (s : EngineState) :
    ((stopNoteCore hold id imm s).1).activeNotes.length ≤ s.activeNotes.length := by
  rcases stopNoteCore_cases hold id imm s with hc | ⟨-, hc⟩
  · rw [hc]
  · rw [hc]; exact mapDelete_length_le id s.activeNotes

theorem stopNoteCore_globalId (hold : Bool) (id : NoteId) (imm : Bool) (s : EngineState) :
    ((stopNoteCore hold id imm s).1).globalId = s.globalId := by
  rcases stopNoteCore_cases hold id imm s with hc | ⟨-, hc⟩ <;> rw [hc]

theorem stopNoteCore_true_length_lt (hold : Bool) (id : NoteId) (s : EngineState)
    (h : mapHas id s.activeNotes = true) :
    ((stopNoteCore hold id true s).1).activeNotes.length < s.activeNotes.length := by
  have hs : (mapGet id s.activeNotes).isSome = true := by rw [mapGet_isSome, h]
  obtain ⟨nd, hg⟩ := Option.isSome_iff_exists.mp hs
  rw [stopNoteCore_removes hold id s nd hg]
  exact mapDelete_length_lt id s.activeNotes h

theorem stopNoteCore_WF (hold : Bool) (id : NoteId) (imm : Bool) (s : EngineState)
    (h : s.WF) : ((stopNoteCore hold id imm s).1).WF := by
  rcases stopNoteCore_cases hold id imm s with hc | ⟨-, hc⟩
  · rw [hc]; exact h
  · rw [hc]
    refine ⟨?_, ?_⟩
    · exact List.Nodup.sublist (mapDelete_keys_sublist id s.activeNotes) h.1
    · intro k hk
      exact h.2 k ((mapDelete_keys_sublist id s.activeNotes).subset hk)

theorem stopNoteCore_heldSubset (hold : Bool) (id : NoteId) (imm : Bool) (s : EngineState)
    (h : s.heldSubset) : ((stopNoteCore hold id imm s).1).heldSubset := by
  rcases stopNoteCore_cases hold id imm s with hc | ⟨-, hc⟩
  · rw [hc]; exact h
  · rw [hc]
    intro id' hid'
    obtain ⟨h1, h2⟩ := (mem_setDelete id id' s.heldNotes).mp hid'
    rw [mapHas_mapDelete_of_ne id id' _ h2]
    exact h id' h1

theorem stealOldest_globalId (hold : Bool) (ceiling : Int) (s : EngineState) :
    (stealOldest hold ceiling s).globalId = s.globalId := by
  unfold stealOldest
  by_cases hfull : (s.activeNotes.length : Int) ≥ ceiling
  · rw [if_pos hfull]
    cases hm : mapFirstKey s.activeNotes with
    | none => rfl
    | some oldest => exact stopNoteCore_globalId hold oldest true s
  · rw [if_neg hfull]

theorem stealOldest_length_lt (hold : Bool) (ceiling : Int) (s : EngineState)
    (hc : 1 ≤ ceiling) (h : (s.activeNotes.length : Int) ≤ ceiling) :
    ((stealOldest hold ceiling s).activeNotes.length : Int) < ceiling := by
  unfold stealOldest
  by_cases hfull : (s.activeNotes.length : Int) ≥ ceiling
  · rw [if_pos hfull]
    cases hm : s.activeNotes with
    | nil => rw [hm] at hfull; simp at hfull; omega
    | cons e rest =>
      have hfk : mapFirstKey (e :: rest) = some e.1 := rfl
      rw [hfk]
      show (((stopNoteCore hold e.1 true s).1).activeNotes.length : Int) < ceiling
      have hhas : mapHas e.1 s.activeNotes = true := by
        rw [hm, mapHas, if_pos rfl]
      have := stopNoteCore_true_length_lt hold e.1 s hhas
      omega
  · rw [if_neg hfull]; omega

theorem stealOldest_WF (hold : Bool) (ceiling : Int) (s : EngineState)
    (h : s.WF) : (stealOldest hold ceiling s).WF := by
  unfold stealOldest
  by_cases hfull : (s.activeNotes.length : Int) ≥ ceiling
  · rw [if_pos hfull]
    cases hm : mapFirstKey s.activeNotes with
    | none => exact h
    | some oldest => exact stopNoteCore_WF hold oldest true s h
  · rw [if_neg hfull]; exact h

theorem stealOldest_heldSubset (hold : Bool) (ceiling : Int) (s : EngineState)
    (h : s.heldSubset) : (stealOldest hold ceiling s).heldSubset := by
  unfold stealOldest
  by_cases hfull : (s.activeNotes.length : Int) ≥ ceiling
  · rw [if_pos hfull]
    cases hm : mapFirstKey s.activeNotes with
    | none => exact h
    | some oldest => exact stopNoteCore_heldSubset hold oldest true s h
  · rw [if_neg hfull]; exact h

theorem stealOldest_head (hold : Bool) (ceiling : Int) (s : EngineState)
    (k₀ : NoteId) (v₀ : NoteData) (rest : List (NoteId × NoteData))
    (hnd : s.activeKeys.Nodup) (hact : s.activeNotes = (k₀, v₀) :: rest)
    (hfull : (s.activeNotes.length : Int) ≥ ceiling) :
    stealOldest hold ceiling s =
      { s with activeNotes := rest, heldNotes := setDelete k₀ s.heldNotes } := by
  unfold stealOldest
  rw [if_pos hfull]
  have hfk : mapFirstKey s.activeNotes = some k₀ := by rw [hact]; rfl
  rw [hfk]
  show (stopNoteCore hold k₀ true s).1 = _
  have hg : mapGet k₀ s.activeNotes = some v₀ := by
    rw [hact, mapGet, if_pos rfl]
  rw [stopNoteCore_removes hold k₀ s v₀ hg]
  have hnotin : mapHas k₀ rest = false := by
    simp only [EngineState.activeKeys, hact, List.map_cons] at hnd
    cases hb : mapHas k₀ rest
    · rfl
    · exact absurd ((mapHas_iff_mem_keys k₀ rest).mp hb) (List.nodup_cons.mp hnd).1
  have hdel : mapDelete k₀ s.activeNotes = rest := by
    rw [hact, mapDelete, if_pos rfl]
    exact mapDelete_of_not_has k₀ rest hnotin
  rw [hdel]

theorem foldl_stopNoteCore_length_le (hold imm : Bool) (ks : List NoteId) :
    ∀ acc : EngineState,
      (ks.foldl (fun acc k => (stopNoteCore hold k imm acc).1) acc).activeNotes.length
        ≤ acc.activeNotes.length := by
  induction ks with
  | nil => intro acc; simp
  | cons k ks ih =>
    intro acc
    simp only [List.foldl_cons]
    exact (ih _).trans (stopNoteCore_length_le hold k imm acc)

theorem foldl_stopNoteCore_globalId (hold imm : Bool) (ks : List NoteId) :
    ∀ acc : EngineState,
      (ks.foldl (fun acc k => (stopNoteCore hold k imm acc).1) acc).globalId
        = acc.globalId := by
  induction ks with
  | nil => intro acc; simp
  | cons k ks ih =>
    intro acc
    simp only [List.foldl_cons]
    rw [ih _, stopNoteCore_globalId]

theorem foldl_stopNoteCore_WF (hold imm : Bool) (ks : List NoteId) :
    ∀ acc : EngineState, acc.WF →
      (ks.foldl (fun acc k => (stopNoteCore hold k imm acc).1) acc).WF := by
  induction ks with
  | nil => intro acc h; exact h
  | cons k ks ih =>
    intro acc h
    simp only [List.foldl_cons]
    exact ih _ (stopNoteCore_WF hold k imm acc h)

theorem foldl_stopNoteCore_heldSubset (hold imm : Bool) (ks : List NoteId) :
    ∀ acc : EngineState, acc.heldSubset →
      (ks.foldl (fun acc k => (stopNoteCore hold k imm acc).1) acc).heldSubset := by
  induction ks with
  | nil => intro acc h; exact h
  | cons k ks ih =>
    intro acc h
    simp only [List.foldl_cons]
    exact ih _ (stopNoteCore_heldSubset hold k imm acc h)

theorem stopSweep_length_le (hold imm : Bool) (s : EngineState) :
    (stopSweep hold imm s).activeNotes.length ≤ s.activeNotes.length :=
  foldl_stopNoteCore_length_le hold imm s.activeKeys s

theorem stopSweep_globalId (hold imm : Bool) (s : EngineState) :
    (stopSweep hold imm s).globalId = s.globalId :=
  foldl_stopNoteCore_globalId hold imm s.activeKeys s

theorem stopSweep_WF (hold imm : Bool) (s : EngineState) (h : s.WF) :
    (stopSweep hold imm s).WF :=
  foldl_stopNoteCore_WF hold imm s.activeKeys s h

theorem stopSweep_heldSubset (hold imm : Bool) (s : EngineState) (h : s.heldSubset) :
    (stopSweep hold imm s).heldSubset :=
  foldl_stopNoteCore_heldSubset hold imm s.activeKeys s h

theorem mapHas_fresh (m : List (NoteId × NoteData)) (gid : Nat) (note : String)
    (hwf : ∀ k ∈ m.map Prod.fst, k.uid ≤ gid) :
    mapHas ⟨note, gid + 1⟩ m = false := by
  cases hb : mapHas ⟨note, gid + 1⟩ m
  · rfl
  · have hmem := (mapHas_iff_mem_keys (⟨note, gid + 1⟩ : NoteId) m).mp hb
    have hle := hwf _ hmem
    simp at hle

theorem NE.playNote_tonal (st : NE.SynthSettings) (note : String) (dur : Option Rat)
    (s : EngineState) (hn : ¬ (noteFreq note).isNone = true) (he : ¬ st.engine = "drum") :
    NE.playNote st note dur s =
      ⟨{ activeNotes := mapSet ⟨note, s.globalId + 1⟩
           (if st.engine = "fm" then ⟨note, 3, NE.fmEnv st.fm⟩
            else ⟨note, 1, NE.subEnv st.subtractive⟩)
           (stealOldest st.performance.hold st.polyphony s).activeNotes
       , heldNotes :=
           if st.performance.hold then
             setAdd ⟨note, s.globalId + 1⟩
               (stealOldest st.performance.hold st.polyphony s).heldNotes
           else (stealOldest st.performance.hold st.polyphony s).heldNotes
       , globalId := s.globalId + 1 }
      , some ⟨note, s.globalId + 1⟩
      , match dur with
        | some d => if d ≠ 0 then [⟨note, s.globalId + 1⟩] else []
        | none => []⟩ := by
  unfold NE.playNote
  rw [if_neg hn, if_neg he]

theorem NE.playNote_length_le (st : NE.SynthSettings) (note : String) (dur : Option Rat)
    (s : EngineState) (hP : 1 ≤ st.polyphony)
    (h : (s.activeNotes.length : Int) ≤ st.polyphony) :
    (((NE.playNote st note dur s).state).activeNotes.length : Int) ≤ st.polyphony := by
  by_cases hn : (noteFreq note).isNone = true
  · unfold NE.playNote; rw [if_pos hn]; exact h
  by_cases he : st.engine = "drum"
  · unfold NE.playNote; rw [if_neg hn, if_pos he]; exact h
  rw [NE.playNote_tonal st note dur s hn he]
  have h1 := stealOldest_length_lt st.performance.hold st.polyphony s hP h
  have h2 := mapSet_length_le (⟨note, s.globalId + 1⟩ : NoteId)
    (if st.engine = "fm" then (⟨note, 3, NE.fmEnv st.fm⟩ : NoteData)
     else ⟨note, 1, NE.subEnv st.subtractive⟩)
    (stealOldest st.performance.hold st.polyphony s).activeNotes
  dsimp only
  omega

theorem NE.playNote_WF (st : NE.SynthSettings) (note : String) (dur : Option Rat)
    (s : EngineState) (h : s.WF) : ((NE.playNote st note dur s).state).WF := by
  by_cases hn : (noteFreq note).isNone = true
  · unfold NE.playNote; rw [if_pos hn]; exact h
  by_cases he : st.engine = "drum"
  · unfold NE.playNote; rw [if_neg hn, if_pos he]; exact h
  rw [NE.playNote_tonal st note dur s hn he]
  have h1 : (stealOldest st.performance.hold st.polyphony s).WF :=
    stealOldest_WF _ _ _ h
  have hgid : (stealOldest st.performance.hold st.polyphony s).globalId = s.globalId :=
    stealOldest_globalId _ _ _
  have hfresh : mapHas ⟨note, s.globalId + 1⟩
      (stealOldest st.performance.hold st.polyphony s).activeNotes = false := by
    apply mapHas_fresh
    intro k hk
    have hb := h1.2 k hk
    rw [hgid] at hb
    exact hb
  constructor
  · show ((mapSet _ _ _).map Prod.fst).Nodup
    rw [mapSet_of_not_has _ _ _ hfresh, List.map_append]
    refine List.Nodup.append h1.1 (List.nodup_singleton _) ?_
    intro a ha hb
    rw [List.map_singleton, List.mem_singleton] at hb
    subst hb
    have hc := (mapHas_iff_mem_keys _ _).mpr ha
    rw [hfresh] at hc
    exact Bool.noConfusion hc
  · intro k hk
    show k.uid ≤ s.globalId + 1
    have hk' : k ∈ (mapSet (⟨note, s.globalId + 1⟩ : NoteId) _ _).map Prod.fst := hk
    rw [mapSet_of_not_has _ _ _ hfresh, List.map_append] at hk'
    rcases List.mem_append.mp hk' with hk2 | hk2
    · have hb := h1.2 k hk2
      rw [hgid] at hb
      omega
    · rw [List.map_singleton, List.mem_singleton] at hk2
      subst hk2
      exact le_refl _

theorem NE.playNote_heldSubset (st : NE.SynthSettings) (note : String) (dur : Option Rat)
    (s : EngineState) (h : s.heldSubset) : ((NE.playNote st note dur s).state).heldSubset := by
  by_cases hn : (noteFreq note).isNone = true
  · unfold NE.playNote; rw [if_pos hn]; exact h
  by_cases he : st.engine = "drum"
  · unfold NE.playNote; rw [if_neg hn, if_pos he]; exact h
  rw [NE.playNote_tonal st note dur s hn he]
  have h1 : (stealOldest st.performance.hold st.polyphony s).heldSubset :=
    stealOldest_heldSubset _ _ _ h
  unfold EngineState.heldSubset
  intro id' hid'
  by_cases hh : st.performance.hold
  · rw [if_pos hh] at hid'
    rcases (mem_setAdd _ _ _).mp hid' with rfl | hmem
    · exact mapHas_mapSet_self _ _ _
    · exact mapHas_mapSet_of_has _ _ _ _ (h1 _ hmem)
  · rw [if_neg hh] at hid'
    exact mapHas_mapSet_of_has _ _ _ _ (h1 _ hid')

theorem NE.playSeq_length_le (st : NE.SynthSettings) (hP : 1 ≤ st.polyphony)
    (calls : List (String × Option Rat)) :
    ∀ s : EngineState, (s.activeNotes.length : Int) ≤ st.polyphony →
      (((NE.playSeq st calls s).activeNotes.length : Int) ≤ st.polyphony) := by
  induction calls with
  | nil => intro s h; exact h
  | cons c cs ih =>
    intro s h
    have h1 := NE.playNote_length_le st c.1 c.2 s hP h
    simpa [NE.playSeq, List.foldl_cons] using ih _ h1

theorem NE.playSeq_WF (st : NE.SynthSettings) (calls : List (String × Option Rat)) :
    ∀ s : EngineState, s.WF → (NE.playSeq st calls s).WF := by
  induction calls with
  | nil => intro s h; exact h
  | cons c cs ih =>
    intro s h
    have h1 := NE.playNote_WF st c.1 c.2 s h
    simpa [NE.playSeq, List.foldl_cons] using ih _ h1

theorem P0.monoStep_eq (st : P0.Settings) (s : EngineState) :
    (if st.performance.mono = true ∧ 0 < s.activeNotes.length
     then P0.stopAllActive st s else s) = s ∨
    (if st.performance.mono = true ∧ 0 < s.activeNotes.length
     then P0.stopAllActive st s else s) = stopSweep st.performance.hold true s := by
  by_cases hm : st.performance.mono = true ∧ 0 < s.activeNotes.length
  · rw [if_pos hm]; exact Or.inr rfl
  · rw [if_neg hm]; exact Or.inl rfl

theorem P0.playNote_tonal_p0 (st : P0.Settings) (note : String) (dur : Option Rat)
    (s : EngineState) (hn : ¬ (noteFreq note).isNone = true) :
    P0.playNote st note dur s =
      ⟨{ activeNotes := mapSet ⟨note, s.globalId + 1⟩ ⟨note, 1, P0.p0Env st⟩
           (stealOldest st.performance.hold (P0.maxNotes st)
             (if st.performance.mono = true ∧ 0 < s.activeNotes.length
              then P0.stopAllActive st s else s)).activeNotes
       , heldNotes :=
           if st.performance.hold then
             setAdd ⟨note, s.globalId + 1⟩
               (stealOldest st.performance.hold (P0.maxNotes st)
                 (if st.performance.mono = true ∧ 0 < s.activeNotes.length
                  then P0.stopAllActive st s else s)).heldNotes
           else
             (stealOldest st.performance.hold (P0.maxNotes st)
               (if st.performance.mono = true ∧ 0 < s.activeNotes.length
                then P0.stopAllActive st s else s)).heldNotes
       , globalId := s.globalId + 1 }
      , some ⟨note, s.globalId + 1⟩
      , match dur with
        | some d => if d ≠ 0 then [⟨note, s.globalId + 1⟩] else []
        | none => []⟩ := by
  unfold P0.playNote
  rw [if_neg hn]

theorem P0.playNote_length_le_p0 (st : P0.Settings) (note : String) (dur : Option Rat)
    (s : EngineState) (hP : 1 ≤ P0.maxNotes st)
    (h : (s.activeNotes.length : Int) ≤ P0.maxNotes st) :
    (((P0.playNote st note dur s).state).activeNotes.length : Int) ≤ P0.maxNotes st := by
  by_cases hn : (noteFreq note).isNone = true
  · unfold P0.playNote; rw [if_pos hn]; exact h
  rw [P0.playNote_tonal_p0 st note dur s hn]
  have h0 : (((if st.performance.mono = true ∧ 0 < s.activeNotes.length
      then P0.stopAllActive st s else s)).activeNotes.length : Int) ≤ P0.maxNotes st := by
    rcases P0.monoStep_eq st s with hc | hc <;> rw [hc]
    · exact h
    · have := stopSweep_length_le st.performance.hold true s
      omega
  have h1 := stealOldest_length_lt st.performance.hold (P0.maxNotes st)
    (if st.performance.mono = true ∧ 0 < s.activeNotes.length
     then P0.stopAllActive st s else s) hP h0
  have h2 := mapSet_length_le (⟨note, s.globalId + 1⟩ : NoteId)
    (⟨note, 1, P0.p0Env st⟩ : NoteData)
    (stealOldest st.performance.hold (P0.maxNotes st)
      (if st.performance.mono = true ∧ 0 < s.activeNotes.length
       then P0.stopAllActive st s else s)).activeNotes
  dsimp only
  omega

theorem P0.playNote_WF_p0 (st : P0.Settings) (note : String) (dur : Option Rat)
    (s : EngineState) (h : s.WF) : ((P0.playNote st note dur s).state).WF := by
  by_cases hn : (noteFreq note).isNone = true
  · unfold P0.playNote; rw [if_pos hn]; exact h
  rw [P0.playNote_tonal_p0 st note dur s hn]
  have h0 : (if st.performance.mono = true ∧ 0 < s.activeNotes.length
      then P0.stopAllActive st s else s).WF := by
    rcases P0.monoStep_eq st s with hc | hc <;> rw [hc]
    · exact h
    · exact stopSweep_WF _ _ _ h
  have hgid0 : (if st.performance.mono = true ∧ 0 < s.activeNotes.length
      then P0.stopAllActive st s else s).globalId = s.globalId := by
    rcases P0.monoStep_eq st s with hc | hc <;> rw [hc]
    exact stopSweep_globalId _ _ _
  have h1 := stealOldest_WF st.performance.hold (P0.maxNotes st) _ h0
  have hgid1 := stealOldest_globalId st.performance.hold (P0.maxNotes st)
    (if st.performance.mono = true ∧ 0 < s.activeNotes.length
     then P0.stopAllActive st s else s)
  have hfresh : mapHas ⟨note, s.globalId + 1⟩
      (stealOldest st.performance.hold (P0.maxNotes st)
        (if st.performance.mono = true ∧ 0 < s.activeNotes.length
         then P0.stopAllActive st s else s)).activeNotes = false := by
    apply mapHas_fresh
    intro k hk
    have hb := h1.2 k hk
    rw [hgid1, hgid0] at hb
    exact hb
  constructor
  · show ((mapSet _ _ _).map Prod.fst).Nodup
    rw [mapSet_of_not_has _ _ _ hfresh, List.map_append]
    refine List.Nodup.append h1.1 (List.nodup_singleton _) ?_
    intro a ha hb
    rw [List.map_singleton, List.mem_singleton] at hb
    subst hb
    have hc := (mapHas_iff_mem_keys _ _).mpr ha
    rw [hfresh] at hc
    exact Bool.noConfusion hc
  · intro k hk
    show k.uid ≤ s.globalId + 1
    have hk' : k ∈ (mapSet (⟨note, s.globalId + 1⟩ : NoteId) _ _).map Prod.fst := hk
    rw [mapSet_of_not_has _ _ _ hfresh, List.map_append] at hk'
    rcases List.mem_append.mp hk' with hk2 | hk2
    · have hb := h1.2 k hk2
      rw [hgid1, hgid0] at hb
      omega
    · rw [List.map_singleton, List.mem_singleton] at hk2
      subst hk2
      exact le_refl _

theorem P0.playNote_heldSubset_p0 (st : P0.Settings) (note : String) (dur : Option Rat)
    (s : EngineState) (h : s.heldSubset) : ((P0.playNote st note dur s).state).heldSubset := by
  by_cases hn : (noteFreq note).isNone = true
  · unfold P0.playNote; rw [if_pos hn]; exact h
  rw [P0.playNote_tonal_p0 st note dur s hn]
  have h0 : (if st.performance.mono = true ∧ 0 < s.activeNotes.length
      then P0.stopAllActive st s else s).heldSubset := by
    rcases P0.monoStep_eq st s with hc | hc <;> rw [hc]
    · exact h
    · exact stopSweep_heldSubset _ _ _ h
  have h1 := stealOldest_heldSubset st.performance.hold (P0.maxNotes st) _ h0
  unfold EngineState.heldSubset
  intro id' hid'
  by_cases hh : st.performance.hold
  · rw [if_pos hh] at hid'
    rcases (mem_setAdd _ _ _).mp hid' with rfl | hmem
    · exact mapHas_mapSet_self _ _ _
    · exact mapHas_mapSet_of_has _ _ _ _ (h1 _ hmem)
  · rw [if_neg hh] at hid'
    exact mapHas_mapSet_of_has _ _ _ _ (h1 _ hid')

theorem P0.playSeq_length_le_p0 (st : P0.Settings) (hP : 1 ≤ P0.maxNotes st)
    (calls : List (String × Option Rat)) :
    ∀ s : EngineState, (s.activeNotes.length : Int) ≤ P0.maxNotes st →
      (((P0.playSeq st calls s).activeNotes.length : Int) ≤ P0.maxNotes st) := by
  induction calls with
  | nil => intro s h; exact h
  | cons c cs ih =>
    intro s h
    have h1 := P0.playNote_length_le_p0 st c.1 c.2 s hP h
    simpa [P0.playSeq, List.foldl_cons] using ih _ h1

theorem P0.playSeq_WF_p0 (st : P0.Settings) (calls : List (String × Option Rat)) :
    ∀ s : EngineState, s.WF → (P0.playSeq st calls s).WF := by
  induction calls with
  | nil => intro s h; exact h
  | cons c cs ih =>
    intro s h
    have h1 := P0.playNote_WF_p0 st c.1 c.2 s h
    simpa [P0.playSeq, List.foldl_cons] using ih _ h1

theorem NE.playNote_steal_fifo (st : NE.SynthSettings) (note : String) (dur : Option Rat)
    (s : EngineState) (hn : ¬ (noteFreq note).isNone = true) (he : ¬ st.engine = "drum")
    (hwf : s.WF) (hfull : (s.activeNotes.length : Int) ≥ st.polyphony)
    (k₀ : NoteId) (v₀ : NoteData) (rest : List (NoteId × NoteData))
    (hact : s.activeNotes = (k₀, v₀) :: rest) :
    ((NE.playNote st note dur s).state).activeKeys =
      rest.map Prod.fst ++ [⟨note, s.globalId + 1⟩] := by
  rw [NE.playNote_tonal st note dur s hn he]
  show (mapSet (⟨note, s.globalId + 1⟩ : NoteId)
      (if st.engine = "fm" then ⟨note, 3, NE.fmEnv st.fm⟩
       else ⟨note, 1, NE.subEnv st.subtractive⟩)
      (stealOldest st.performance.hold st.polyphony s).activeNotes).map Prod.fst = _
  rw [stealOldest_head st.performance.hold st.polyphony s k₀ v₀ rest hwf.1 hact hfull]
  have hub : ∀ k ∈ rest.map Prod.fst, k.uid ≤ s.globalId := by
    intro k hk
    apply hwf.2
    show k ∈ s.activeNotes.map Prod.fst
    rw [hact, List.map_cons]
    exact List.mem_cons_of_mem _ hk
  have hfresh := mapHas_fresh rest s.globalId note hub
  show (mapSet (⟨note, s.globalId + 1⟩ : NoteId) _ rest).map Prod.fst = _
  rw [mapSet_of_not_has _ _ _ hfresh, List.map_append, List.map_singleton]

theorem P0.playNote_steal_fifo_p0 (st : P0.Settings) (note : String) (dur : Option Rat)
    (s : EngineState) (hn : ¬ (noteFreq note).isNone = true)
    (hmono : st.performance.mono = false)
    (hwf : s.WF) (hfull : (s.activeNotes.length : Int) ≥ P0.maxNotes st)
    (k₀ : NoteId) (v₀ : NoteData) (rest : List (NoteId × NoteData))
    (hact : s.activeNotes = (k₀, v₀) :: rest) :
    ((P0.playNote st note dur s).state).activeKeys =
      rest.map Prod.fst ++ [⟨note, s.globalId + 1⟩] := by
  rw [P0.playNote_tonal_p0 st note dur s hn]
  have hs0 : (if st.performance.mono = true ∧ 0 < s.activeNotes.length
      then P0.stopAllActive st s else s) = s := by
    rw [if_neg (by rintro ⟨hc, -⟩; rw [hmono] at hc; exact Bool.noConfusion hc)]
  show (mapSet (⟨note, s.globalId + 1⟩ : NoteId) ⟨note, 1, P0.p0Env st⟩
      (stealOldest st.performance.hold (P0.maxNotes st)
        (if st.performance.mono = true ∧ 0 < s.activeNotes.length
         then P0.stopAllActive st s else s)).activeNotes).map Prod.fst = _
  rw [hs0, stealOldest_head st.performance.hold (P0.maxNotes st) s k₀ v₀ rest hwf.1 hact hfull]
  have hub : ∀ k ∈ rest.map Prod.fst, k.uid ≤ s.globalId := by
    intro k hk
    apply hwf.2
    show k ∈ s.activeNotes.map Prod.fst
    rw [hact, List.map_cons]
    exact List.mem_cons_of_mem _ hk
  have hfresh := mapHas_fresh rest s.globalId note hub
  show (mapSet (⟨note, s.globalId + 1⟩ : NoteId) _ rest).map Prod.fst = _
  rw [mapSet_of_not_has _ _ _ hfresh, List.map_append, List.map_singleton]

theorem EngineState.initial_WF : EngineState.initial.WF := by
  constructor
  · exact List.nodup_nil
  · intro k hk
    exact absurd hk (List.not_mem_nil k)

theorem stopNoteCore_eq_or (hold : Bool) (id : NoteId) (imm : Bool) (s : EngineState) :
    stopNoteCore hold id imm s = (s, []) ∨
    (mapHas id s.activeNotes = true ∧
     (stopNoteCore hold id imm s).1 =
       { s with activeNotes := mapDelete id s.activeNotes
              , heldNotes := setDelete id s.heldNotes }) := by
  cases hg : mapGet id s.activeNotes with
  | none => exact Or.inl (by simp only [stopNoteCore, hg])
  | some nd =>
    have hhas : mapHas id s.activeNotes = true := by
      have h := mapGet_isSome id s.activeNotes
      rw [hg] at h
      simpa using h.symm
    by_cases hguard : hold = true ∧ id ∈ s.heldNotes ∧ imm = false
    · refine Or.inl ?_
      simp only [stopNoteCore, hg]
      rw [if_pos hguard]
    · refine Or.inr ⟨hhas, ?_⟩
      simp only [stopNoteCore, hg]
      rw [if_neg hguard]

theorem waveformGains_getD_ge (w : String) :
    (0.001 : Rat) ≤ (waveformGains w).getD 0.8 := by
  unfold waveformGains
  split_ifs <;> norm_num

theorem waveformGains_scaled_ge (w : String) :
    (0.001 : Rat) ≤ (waveformGains w).getD 0.8 * 0.8 := by
  unfold waveformGains
  split_ifs <;> norm_num

/-- C2: for a note id that is both active and held, with hold mode enabled,
`stopNote(id, immediate=false)` is a no-op (state unchanged, no automation
scheduled), while `stopNote(id, immediate=true)` removes the id from both the
active and held registries whatever the hold flag is. -/
theorem C2_hold_suppression (st : NE.SynthSettings) (s : EngineState) (id : NoteId)
    (hHold : st.performance.hold = true) (hAct : mapHas id s.activeNotes = true)
    (hHeld : id ∈ s.heldNotes) :
    NE.stopNote st id false s = (s, []) ∧
    ∀ hold' : Bool,
      mapHas id ((NE.stopNote
          { st with performance := { st.performance with hold := hold' } }
          id true s).1.activeNotes) = false ∧
      id ∉ ((NE.stopNote
          { st with performance := { st.performance with hold := hold' } }
          id true s).1.heldNotes) := by
  constructor
  · exact stopNoteCore_suppressed st.performance.hold id s hHold hHeld
  · intro hold'
    have hs : (mapGet id s.activeNotes).isSome = true := by rw [mapGet_isSome, hAct]
    obtain ⟨nd, hg⟩ := Option.isSome_iff_exists.mp hs
    have hrm := stopNoteCore_removes hold' id s nd hg
    constructor
    · show mapHas id ((stopNoteCore hold' id true s).1.activeNotes) = false
      rw [hrm]
      exact mapHas_mapDelete_self id s.activeNotes
    · show id ∉ ((stopNoteCore hold' id true s).1.heldNotes)
      rw [hrm]
      intro hc
      exact ((mem_setDelete id id s.heldNotes).mp hc).2 rfl

/-- C2 witness: concrete held C4 voice under hold mode. -/
theorem C2_hold_suppression_witness :
    NE.stHoldOn.performance.hold = true ∧
    mapHas NE.demoNid NE.demoHeldState.activeNotes = true ∧
    NE.demoNid ∈ NE.demoHeldState.heldNotes ∧
    NE.stopNote NE.stHoldOn NE.demoNid false NE.demoHeldState = (NE.demoHeldState, []) :=
  ⟨rfl, by decide, by decide,
   (C2_hold_suppression NE.stHoldOn NE.demoHeldState NE.demoNid rfl
     (by decide) (by decide)).1⟩

/-- C3: for every attack/decay/sustain combination (sustain = 0 included) the
decay-phase target scheduled by `playNote` equals `max(peakGain × sustain,
0.001)`, hence is never below the 0.001 silence floor, and no exponential
ramp with a target below the floor (in particular none with target zero) is
ever scheduled — in the modular subtractive engine, the modular FM engine,
and the single-file variant alike. -/
theorem C3_envelope_floor :
    (∀ p : NE.SubtractiveParams,
       (NE.subEnv p).get? 3 =
         some (.expRamp (max ((waveformGains p.waveform).getD 0.8 * p.sustain) 0.001)) ∧
       (0.001 : Rat) ≤ max ((waveformGains p.waveform).getD 0.8 * p.sustain) 0.001 ∧
       ∀ t : Rat, AudioEvent.expRamp t ∈ NE.subEnv p → (0.001 : Rat) ≤ t) ∧
    (∀ p : NE.FmParams,
       (NE.fmEnv p).get? 3 = some (.expRamp (max (0.7 * p.sustain) 0.001)) ∧
       (0.001 : Rat) ≤ max (0.7 * p.sustain) 0.001 ∧
       ∀ t : Rat, AudioEvent.expRamp t ∈ NE.fmEnv p → (0.001 : Rat) ≤ t) ∧
    (∀ st : P0.Settings,
       (P0.p0Env st).get? 3 =
         some (.expRamp (max ((waveformGains st.waveform).getD 0.8 * 0.8 * st.sustain) 0.001)) ∧
       ∀ t : Rat, AudioEvent.expRamp t ∈ P0.p0Env st → (0.001 : Rat) ≤ t) := by
  refine ⟨fun p => ⟨rfl, le_max_right _ _, ?_⟩,
          fun p => ⟨rfl, le_max_right _ _, ?_⟩,
          fun st => ⟨rfl, ?_⟩⟩
  · intro t ht
    simp only [NE.subEnv, List.mem_cons, List.not_mem_nil, or_false] at ht
    rcases ht with ht | ht | ht | ht
    · exact absurd ht (by simp)
    · exact absurd ht (by simp)
    · rw [AudioEvent.expRamp.injEq] at ht
      rw [ht]
      exact waveformGains_getD_ge p.waveform
    · rw [AudioEvent.expRamp.injEq] at ht
      rw [ht]
      exact le_max_right _ _
  · intro t ht
    simp only [NE.fmEnv, List.mem_cons, List.not_mem_nil, or_false] at ht
    rcases ht with ht | ht | ht | ht
    · exact absurd ht (by simp)
    · exact absurd ht (by simp)
    · rw [AudioEvent.expRamp.injEq] at ht
      rw [ht]
      norm_num
    · rw [AudioEvent.expRamp.injEq] at ht
      rw [ht]
      exact le_max_right _ _
  · intro t ht
    simp only [P0.p0Env, List.mem_cons, List.not_mem_nil, or_false] at ht
    rcases ht with ht | ht | ht | ht
    · exact absurd ht (by simp)
    · exact absurd ht (by simp)
    · rw [AudioEvent.expRamp.injEq] at ht
      rw [ht]
      exact waveformGains_scaled_ge st.waveform
    · rw [AudioEvent.expRamp.injEq] at ht
      rw [ht]
      exact le_max_right _ _

/-- C4: stopping an id that is not in the active registry is a no-op with no
scheduled automation and (being a total function of the embedding) no thrown
exception; and calling `stopNote` a second time with the same arguments has
no observable effect. -/
theorem C4_idempotent_stop :
    (∀ (st : NE.SynthSettings) (s : EngineState) (id : NoteId) (imm : Bool),
       mapHas id s.activeNotes = false → NE.stopNote st id imm s = (s, [])) ∧
    (∀ (st : NE.SynthSettings) (s : EngineState) (id : NoteId) (imm : Bool),
       NE.stopNote st id imm ((NE.stopNote st id imm s).1) =
         ((NE.stopNote st id imm s).1, [])) := by
  constructor
  · intro st s id imm h
    exact stopNoteCore_not_has st.performance.hold id imm s h
  · intro st s id imm
    rcases stopNoteCore_eq_or st.performance.hold id imm s with hc | ⟨hhas, hc⟩
    · show stopNoteCore st.performance.hold id imm ((stopNoteCore st.performance.hold id imm s).1)
        = ((stopNoteCore st.performance.hold id imm s).1, [])
      rw [hc]
      exact hc
    · show stopNoteCore st.performance.hold id imm ((stopNoteCore st.performance.hold id imm s).1)
        = ((stopNoteCore st.performance.hold id imm s).1, [])
      apply stopNoteCore_not_has
      rw [hc]
      exact mapHas_mapDelete_self id s.activeNotes

/-- C4 witness: stop of a never-registered id on a concrete state, and a
double stop of a registered id. -/
theorem C4_idempotent_stop_witness :
    mapHas ⟨"A4", 7⟩ NE.demoHeldState.activeNotes = false ∧
    NE.stopNote NE.defaultSynthSettings ⟨"A4", 7⟩ false NE.demoHeldState =
      (NE.demoHeldState, []) ∧
    NE.stopNote NE.defaultSynthSettings NE.demoNid true
        ((NE.stopNote NE.defaultSynthSettings NE.demoNid true NE.demoHeldState).1) =
      ((NE.stopNote NE.defaultSynthSettings NE.demoNid true NE.demoHeldState).1, []) :=
  ⟨by decide,
   C4_idempotent_stop.1 NE.defaultSynthSettings NE.demoHeldState ⟨"A4", 7⟩ false (by decide),
   C4_idempotent_stop.2 NE.defaultSynthSettings NE.demoHeldState NE.demoNid true⟩

section

attribute [local semireducible] Rat.mul Rat.inv Rat.add Rat.sub Rat.ofScientific

/-- C7: with the held set {C4, E4, G4} and direction "up", six consecutive
arpeggiator ticks trigger C4, E4, G4, C4, E4, G4; with direction "down" they
trigger G4, E4, C4, G4, E4, C4; and in general each tick hands `playNote` the
element of the held set sorted ascending by frequency at the cursor position
(reversed index for "down") and advances the cursor modulo the held count. -/
theorem C7_arp_direction :
    NE.arpTriggers NE.defaultSynthSettings 6 EngineState.initial NE.demoArp =
      [some "C4", some "E4", some "G4", some "C4", some "E4", some "G4"] ∧
    NE.arpTriggers NE.stDown 6 EngineState.initial NE.demoArp =
      [some "G4", some "E4", some "C4", some "G4", some "E4", some "C4"] ∧
    (∀ (st : NE.SynthSettings) (e : EngineState) (a : ArpState),
       0 < a.arpNotes.length →
       (NE.arpTick st e a).2.2 =
         (if st.performance.arpDirection = "down" then
            getAtInt (sortByFreq a.arpNotes)
              (((sortByFreq a.arpNotes).length : Int) - 1 - (a.arpIndex : Int))
          else getAtInt (sortByFreq a.arpNotes) (a.arpIndex : Int)) ∧
       (NE.arpTick st e a).2.1.arpIndex = (a.arpIndex + 1) % a.arpNotes.length) := by
  refine ⟨by decide, by decide, ?_⟩
  intro st e a h
  unfold NE.arpTick
  rw [if_pos h]
  dsimp only
  cases hnp : (if st.performance.arpDirection = "down" then
      getAtInt (sortByFreq a.arpNotes)
        (((sortByFreq a.arpNotes).length : Int) - 1 - (a.arpIndex : Int))
    else getAtInt (sortByFreq a.arpNotes) (a.arpIndex : Int)) with
  | none => exact ⟨rfl, rfl⟩
  | some n => exact ⟨rfl, rfl⟩

/-- C7 witness: the general tick property instantiated at the C-major triad
with direction "down" and cursor 0. -/
theorem C7_arp_direction_witness :
    0 < NE.demoArp.arpNotes.length ∧
    (NE.arpTick NE.stDown EngineState.initial NE.demoArp).2.2 =
      (if NE.stDown.performance.arpDirection = "down" then
         getAtInt (sortByFreq NE.demoArp.arpNotes)
           (((sortByFreq NE.demoArp.arpNotes).length : Int) - 1 - (NE.demoArp.arpIndex : Int))
       else getAtInt (sortByFreq NE.demoArp.arpNotes) (NE.demoArp.arpIndex : Int)) ∧
    (NE.arpTick NE.stDown EngineState.initial NE.demoArp).2.1.arpIndex =
      (NE.demoArp.arpIndex + 1) % NE.demoArp.arpNotes.length :=
  ⟨by decide,
   (C7_arp_direction.2.2 NE.stDown EngineState.initial NE.demoArp (by decide)).1,
   (C7_arp_direction.2.2 NE.stDown EngineState.initial NE.demoArp (by decide)).2⟩

/-- C8: the sequencer timer interval is `60/tempo/4` seconds (125 ms, i.e.
0.125 s, at tempo 120); an enabled step triggers `playNote` with the fixed
duration `60/tempo/2` seconds; and with only step 0 enabled the 16-step cycle
makes exactly one `playNote` call, at step-cursor 0. -/
theorem C8_sequencer_timing :
    NE.sequencerIntervalMs 120 = 125 ∧
    (∀ tempo : Rat, NE.sequencerIntervalMs tempo = 60 / tempo / 4 * 1000) ∧
    (∀ (st : NE.SynthSettings) (pattern : List Bool) (lastNote : String)
       (e : EngineState) (cur : Nat),
       pattern.getD cur false = true →
       (NE.sequencerLoop st pattern lastNote e cur).2.2 =
         some (lastNote, 60 / st.sequencerTempo / 2)) ∧
    NE.seqTriggers NE.defaultSynthSettings NE.patternStep0 "C4" 16 EngineState.initial 0 =
      (List.range 16).map (fun k => (k, if k = 0 then some ("C4", (1 : Rat)/4) else none)) := by
  refine ⟨by norm_num [NE.sequencerIntervalMs], ?_, ?_, by decide⟩
  · intro tempo
    unfold NE.sequencerIntervalMs
    ring
  · intro st pattern lastNote e cur h
    unfold NE.sequencerLoop
    rw [if_pos h]
    rfl

/-- C8 witness: the firing-step duration property at tempo 120 and step 0. -/
theorem C8_sequencer_timing_witness :
    NE.patternStep0.getD 0 false = true ∧
    (NE.sequencerLoop NE.defaultSynthSettings NE.patternStep0 "C4"
        EngineState.initial 0).2.2 =
      some ("C4", 60 / NE.defaultSynthSettings.sequencerTempo / 2) :=
  ⟨by decide,
   C8_sequencer_timing.2.2.1 NE.defaultSynthSettings NE.patternStep0 "C4"
     EngineState.initial 0 (by decide)⟩

/-- C9: every operation of the note engine preserves the invariant that each
id in the held set is a key of the active registry — `playNote` registers the
id before holding it, and `stopNote` deletes from both registries together. -/
theorem C9_held_subset :
    (∀ (st : NE.SynthSettings) (note : String) (dur : Option Rat) (s : EngineState),
       s.heldSubset → ((NE.playNote st note dur s).state).heldSubset) ∧
    (∀ (st : NE.SynthSettings) (id : NoteId) (imm : Bool) (s : EngineState),
       s.heldSubset → ((NE.stopNote st id imm s).1).heldSubset) ∧
    (∀ (st : NE.SynthSettings) (imm : Bool) (s : EngineState),
       s.heldSubset → (NE.stopAllNotes st imm s).heldSubset) :=
  ⟨fun st n d s h => NE.playNote_heldSubset st n d s h,
   fun st id imm s h => stopNoteCore_heldSubset st.performance.hold id imm s h,
   fun st imm s h => stopSweep_heldSubset st.performance.hold imm s h⟩

/-- C9 witness: the invariant holds after playing a note under hold mode from
the empty state. -/
theorem C9_held_subset_witness :
    ((NE.playNote NE.stHoldOn "C4" none EngineState.initial).state).heldSubset :=
  C9_held_subset.1 NE.stHoldOn "C4" none EngineState.initial
    (fun id h => absurd h (List.not_mem_nil id))

/-- C10: under hold mode, `playNote` with a duration returns an id that is
both active and held, schedules exactly one deferred auto-stop for that id,
and that auto-stop — a `stopNote` with `immediate = false` — is suppressed by
hold: it leaves the state unchanged and schedules nothing. -/
theorem C10_hold_suppresses_auto_stop (st : NE.SynthSettings) (s : EngineState)
    (note : String) (d : Rat) (hHold : st.performance.hold = true)
    (hn : (noteFreq note).isNone = false) (he : ¬ st.engine = "drum") (hd : d ≠ 0) :
    ∃ nid : NoteId,
      (NE.playNote st note (some d) s).ret = some nid ∧
      (NE.playNote st note (some d) s).pendingStops = [nid] ∧
      mapHas nid ((NE.playNote st note (some d) s).state).activeNotes = true ∧
      nid ∈ ((NE.playNote st note (some d) s).state).heldNotes ∧
      NE.stopNote st nid false ((NE.playNote st note (some d) s).state) =
        ((NE.playNote st note (some d) s).state, []) := by
  have hn' : ¬ (noteFreq note).isNone = true := by rw [hn]; exact Bool.noConfusion
  have hheld : (⟨note, s.globalId + 1⟩ : NoteId) ∈
      ((NE.playNote st note (some d) s).state).heldNotes := by
    rw [NE.playNote_tonal st note (some d) s hn' he]
    show (⟨note, s.globalId + 1⟩ : NoteId) ∈
      (if st.performance.hold then
         setAdd ⟨note, s.globalId + 1⟩
           (stealOldest st.performance.hold st.polyphony s).heldNotes
       else (stealOldest st.performance.hold st.polyphony s).heldNotes)
    rw [if_pos hHold]
    exact (mem_setAdd _ _ _).mpr (Or.inl rfl)
  refine ⟨⟨note, s.globalId + 1⟩, ?_, ?_, ?_, hheld, ?_⟩
  · rw [NE.playNote_tonal st note (some d) s hn' he]
  · rw [NE.playNote_tonal st note (some d) s hn' he]
    show (if d ≠ 0 then [(⟨note, s.globalId + 1⟩ : NoteId)] else []) = _
    rw [if_pos hd]
  · rw [NE.playNote_tonal st note (some d) s hn' he]
    exact mapHas_mapSet_self _ _ _
  · exact stopNoteCore_suppressed st.performance.hold _ _ hHold hheld

/-- C10 witness: a held C4 with a one-second duration from the empty state. -/
theorem C10_hold_auto_stop_witness :
    NE.stHoldOn.performance.hold = true ∧
    (noteFreq "C4").isNone = false ∧
    ∃ nid : NoteId,
      (NE.playNote NE.stHoldOn "C4" (some 1) EngineState.initial).ret = some nid ∧
      (NE.playNote NE.stHoldOn "C4" (some 1) EngineState.initial).pendingStops = [nid] ∧
      mapHas nid ((NE.playNote NE.stHoldOn "C4" (some 1) EngineState.initial).state).activeNotes = true ∧
      nid ∈ ((NE.playNote NE.stHoldOn "C4" (some 1) EngineState.initial).state).heldNotes ∧
      NE.stopNote NE.stHoldOn nid false
          ((NE.playNote NE.stHoldOn "C4" (some 1) EngineState.initial).state) =
        ((NE.playNote NE.stHoldOn "C4" (some 1) EngineState.initial).state, []) :=
  ⟨rfl, by decide,
   C10_hold_suppresses_auto_stop NE.stHoldOn EngineState.initial "C4" 1 rfl
     (by decide) (by decide) (by decide)⟩
/-- C5 (amended): `savePreset(0)` then `loadPreset(0)` restores every field
of the Settings Tree and the Pattern to their save-time values; in addition
the load injects the saved pattern as the settings object's `sequencer`
property, so literal deep equality of the raw settings object holds exactly
when that property already equalled the current pattern at save time (as it
does after any previous load). -/
theorem C5_preset_roundtrip_amended (sys : NE.PresetSys) :
    NE.eraseSeqKey ((NE.loadPreset 0 (NE.savePreset 0 sys)).live) =
      NE.eraseSeqKey sys.live ∧
    (NE.loadPreset 0 (NE.savePreset 0 sys)).pattern = sys.pattern ∧
    (NE.loadPreset 0 (NE.savePreset 0 sys)).live.sequencer = some sys.pattern ∧
    (sys.live.sequencer = some sys.pattern →
      (NE.loadPreset 0 (NE.savePreset 0 sys)).live = sys.live) := by
  have hload : NE.loadPreset 0 (NE.savePreset 0 sys) =
      { NE.savePreset 0 sys with
          live := { sys.live with sequencer := some sys.pattern }
        , pattern := sys.pattern } := by
    simp [NE.loadPreset, NE.savePreset, NE.setSlot, NE.getSlot]
  rw [hload]
  refine ⟨rfl, rfl, rfl, fun h => ?_⟩
  show ({ sys.live with sequencer := some sys.pattern } : NE.SynthSettings) = sys.live
  rw [← h]

/-- C5 counterexample: starting from the fresh settings object (no
`sequencer` property yet), one save/load round trip leaves the live settings
object different from its save-time value — the claimed deep equality fails. -/
theorem C5_preset_roundtrip_cex :
    (NE.loadPreset 0 (NE.savePreset 0 NE.demoSys)).live ≠ NE.demoSys.live := by
  decide

/-- C5 witness: on a system whose settings already carry the matching
`sequencer` property, the round trip is a literal identity on the live
settings. -/
theorem C5_preset_roundtrip_witness :
    NE.demoSysMatched.live.sequencer = some NE.demoSysMatched.pattern ∧
    (NE.loadPreset 0 (NE.savePreset 0 NE.demoSysMatched)).live =
      NE.demoSysMatched.live :=
  ⟨by decide, (C5_preset_roundtrip_amended NE.demoSysMatched).2.2.2 (by decide)⟩

/-- C6: evaluation of the code at the failing input.  In the modular variant
(`src/js/features/presets.js`), loading an empty slot leaves the live
Settings Tree untouched (polyphony stays 8 instead of reverting to the
default 16) and only blanks the pattern, while the single-file variant
(`src/unnamed/part_000`) does restore the default Settings Tree (up to the
surviving dynamically-added `sequencer` property) and blanks the pattern, as
the claim states. -/
theorem C6_empty_slot_eval :
    (NE.loadPreset 1 NE.bugSys).live = NE.bugSys.live ∧
    NE.bugSys.live.polyphony = 8 ∧
    NE.defaultSynthSettings.polyphony = 16 ∧
    (NE.loadPreset 1 NE.bugSys).pattern = NE.blankPattern ∧
    (P0.loadPreset 1 P0.bugSys).live =
      { P0.defaultSynthSettings with sequencer := P0.bugSys.live.sequencer } ∧
    (P0.loadPreset 1 P0.bugSys).pattern = NE.blankPattern := by
  decide

/-- C1 (amended): starting from the empty registry, any sequence of
`playNote` calls keeps the active-note count within the variant's ceiling —
the configured polyphony itself in the modular note engine (no headroom
reduction there), and `polyphony` under hold / `polyphony - 2` otherwise in
the single-file variant — and whenever a tonal `playNote` call finds the
registry at or above that ceiling, exactly the insertion-order head is
force-stopped: the registry's keys afterwards are the old tail followed by
the fresh id (FIFO voice stealing). -/
theorem C1_polyphony_amended :
    (∀ (st : NE.SynthSettings) (calls : List (String × Option Rat)),
       1 ≤ st.polyphony →
       (((NE.playSeq st calls EngineState.initial).activeNotes.length : Int)
         ≤ st.polyphony)) ∧
    (∀ (st : NE.SynthSettings) (calls : List (String × Option Rat)) (note : String)
       (dur : Option Rat) (k₀ : NoteId) (v₀ : NoteData) (rest : List (NoteId × NoteData)),
       ¬ (noteFreq note).isNone = true → ¬ st.engine = "drum" →
       (((NE.playSeq st calls EngineState.initial).activeNotes.length : Int)
         ≥ st.polyphony) →
       (NE.playSeq st calls EngineState.initial).activeNotes = (k₀, v₀) :: rest →
       ((NE.playNote st note dur (NE.playSeq st calls EngineState.initial)).state).activeKeys =
         rest.map Prod.fst ++
           [⟨note, (NE.playSeq st calls EngineState.initial).globalId + 1⟩]) ∧
    (∀ (st : P0.Settings) (calls : List (String × Option Rat)),
       1 ≤ P0.maxNotes st →
       (((P0.playSeq st calls EngineState.initial).activeNotes.length : Int)
         ≤ P0.maxNotes st)) ∧
    (∀ (st : P0.Settings) (calls : List (String × Option Rat)) (note : String)
       (dur : Option Rat) (k₀ : NoteId) (v₀ : NoteData) (rest : List (NoteId × NoteData)),
       ¬ (noteFreq note).isNone = true → st.performance.mono = false →
       (((P0.playSeq st calls EngineState.initial).activeNotes.length : Int)
         ≥ P0.maxNotes st) →
       (P0.playSeq st calls EngineState.initial).activeNotes = (k₀, v₀) :: rest →
       ((P0.playNote st note dur (P0.playSeq st calls EngineState.initial)).state).activeKeys =
         rest.map Prod.fst ++
           [⟨note, (P0.playSeq st calls EngineState.initial).globalId + 1⟩]) := by
  refine ⟨?_, ?_, ?_, ?_⟩
  · intro st calls hP
    apply NE.playSeq_length_le st hP calls
    show ((0 : Nat) : Int) ≤ st.polyphony
    omega
  · intro st calls note dur k₀ v₀ rest hn he hfull hact
    exact NE.playNote_steal_fifo st note dur _ hn he
      (NE.playSeq_WF st calls EngineState.initial EngineState.initial_WF)
      hfull k₀ v₀ rest hact
  · intro st calls hP
    apply P0.playSeq_length_le_p0 st hP calls
    show ((0 : Nat) : Int) ≤ P0.maxNotes st
    omega
  · intro st calls note dur k₀ v₀ rest hn hmono hfull hact
    exact P0.playNote_steal_fifo_p0 st note dur _ hn hmono
      (P0.playSeq_WF_p0 st calls EngineState.initial EngineState.initial_WF)
      hfull k₀ v₀ rest hact

/-- C1 counterexample: with the modular variant's default settings (hold
disabled, polyphony 16), sixteen `playNote` calls from the empty registry
leave sixteen simultaneously active notes — the full configured polyphony,
exceeding the hold-disabled headroom-reduced ceiling (16 − 2) that the claim
asserts. -/
theorem C1_polyphony_cex :
    NE.defaultSynthSettings.performance.hold = false ∧
    NE.defaultSynthSettings.polyphony = 16 ∧
    (NE.playSeq NE.defaultSynthSettings (List.replicate 16 ("C4", none))
        EngineState.initial).activeNotes.length = 16 ∧
    ¬ ((16 : Int) ≤ 16 - 2) := by
  decide

/-- C1 witness: the bound and the FIFO steal exercised at polyphony 1
(modular) and polyphony 3 with hold off, i.e. ceiling 1 (single-file). -/
theorem C1_polyphony_witness :
    ((1 : Int) ≤ NE.stPoly1.polyphony ∧
     ((NE.playSeq NE.stPoly1 [("C4", none)] EngineState.initial).activeNotes.length : Int)
       ≤ NE.stPoly1.polyphony) ∧
    ((NE.playNote NE.stPoly1 "D4" none
        (NE.playSeq NE.stPoly1 [("C4", none)] EngineState.initial)).state).activeKeys =
      List.map Prod.fst ([] : List (NoteId × NoteData)) ++
        [⟨"D4", (NE.playSeq NE.stPoly1 [("C4", none)] EngineState.initial).globalId + 1⟩] ∧
    ((1 : Int) ≤ P0.maxNotes P0.stPoly3 ∧
     ((P0.playSeq P0.stPoly3 [("C4", none)] EngineState.initial).activeNotes.length : Int)
       ≤ P0.maxNotes P0.stPoly3) ∧
    ((P0.playNote P0.stPoly3 "D4" none
        (P0.playSeq P0.stPoly3 [("C4", none)] EngineState.initial)).state).activeKeys =
      List.map Prod.fst ([] : List (NoteId × NoteData)) ++
        [⟨"D4", (P0.playSeq P0.stPoly3 [("C4", none)] EngineState.initial).globalId + 1⟩] :=
  ⟨⟨by decide, C1_polyphony_amended.1 NE.stPoly1 [("C4", none)] (by decide)⟩,
   C1_polyphony_amended.2.1 NE.stPoly1 [("C4", none)] "D4" none
     ⟨"C4", 1⟩ ⟨"C4", 1, NE.subEnv NE.stPoly1.subtractive⟩ []
     (by decide) (by decide) (by decide) (by decide),
   ⟨by decide, C1_polyphony_amended.2.2.1 P0.stPoly3 [("C4", none)] (by decide)⟩,
   C1_polyphony_amended.2.2.2 P0.stPoly3 [("C4", none)] "D4" none
     ⟨"C4", 1⟩ ⟨"C4", 1, P0.p0Env P0.stPoly3⟩ []
     (by decide) (by decide) (by decide) (by decide)⟩

end
